import Mathlib

/-
Verification of the starstream_sys guest-side library (src/starstream_sys/src/lib.rs)
against its natural-language specification.

The library is a thin wrapper over a raw call boundary between an isolated
guest unit and an external host.  Pure guest-side code (status queries,
convenience wrappers, the suspension call marshalling, the signature stubs)
is embedded directly from the source.  Host-side behaviour (the linear token
arena behind the mint/burn imports, the unit status state machine behind the
status/resume imports, the byte transfer performed by starstream_yield) is
declared in the source only as extern imports; those parts are modelled from
the specification and marked as such in their doc comments.

Machine integers (u32 handle pointers, u64 storage fields) carry no
arithmetic in this library, so they are embedded as Nat.
-/

-- ----------------------------------------------------------------------------
-- Wire types, from the source

/-- CodeHash from lib.rs:19-21: a 32-byte array. Bytes are modelled as Nat
below 256; the library only ever constructs the zero hash. -/
structure CodeHash where
  raw : List Nat
deriving DecidableEq, Repr

/-- CodeHash::zero from lib.rs:24-26. -/
def CodeHash.zero : CodeHash :=
  CodeHash.mk (List.replicate 32 0)

/-- PublicKey from lib.rs:31-33: a zero-sized marker type. -/
structure PublicKey where
deriving DecidableEq, Repr

/-- PrivateKey from lib.rs:36: a zero-sized marker type. -/
structure PrivateKey where
deriving DecidableEq, Repr

/-- SignedMessage from lib.rs:39: a zero-sized marker type carrying no
signature data at all in this version. -/
structure SignedMessage where
deriving DecidableEq, Repr

/-- PrivateKey::public_key from lib.rs:42-44. -/
def PrivateKey.public_key (_self : PrivateKey) : PublicKey :=
  PublicKey.mk

/-- PrivateKey::sign from lib.rs:46-48: ignores the message bytes. -/
def PrivateKey.sign (_self : PrivateKey) (_message : List Nat) : SignedMessage :=
  SignedMessage.mk

/-- SignedMessage::is_valid from lib.rs:52-54: returns true unconditionally,
ignoring both the signature value and the message. -/
def SignedMessage.is_valid (_self : SignedMessage) (_message : List Nat) : Bool :=
  true

/-- assert_tx_signed_by from lib.rs:99-101: the body is empty (a TODO),
so the function performs no check and returns unit. -/
def assert_tx_signed_by (_key : PublicKey) : Unit :=
  ()

/-- UtxoStatus from lib.rs:59-62. -/
inductive UtxoStatus where
  | Returned
  | Yielded
deriving DecidableEq, Repr

/-- UtxoStatus::can_resume from lib.rs:64-69: matches!(self, Yielded). -/
def UtxoStatus.can_resume : UtxoStatus → Bool
  | UtxoStatus.Yielded => true
  | UtxoStatus.Returned => false

/-- TokenStorage from lib.rs:107-110: the concrete wire representation of a
resource, a pair of u64 fields. -/
structure TokenStorage where
  id : Nat
  amount : Nat
deriving DecidableEq, Repr

/-- TokenHandle from lib.rs:140-143: an opaque u32 key into host state,
phantom-tagged at compile time. Only the key is runtime data. -/
structure TokenHandle where
  ptr : Nat
deriving DecidableEq, Repr

-- ----------------------------------------------------------------------------
-- Utxo trait (guest side), from the source

/-- The Utxo trait of lib.rs:266-285, shallowly embedded: an instantiation
provides the two host imports bound by utxo_import (a status accessor and a
resume operation).  H is the handle type, R the Resume type, E the
observable effect of a resume call. -/
structure UtxoOps (H R E : Type) where
  status : H → UtxoStatus
  resume : H → R → E

/-- Default method Utxo::can_resume from lib.rs:272-277:
self.status().can_resume(). -/
def UtxoOps.can_resume {H R E : Type} (ops : UtxoOps H R E) (h : H) : Bool :=
  (ops.status h).can_resume

/-- Default method Utxo::next from lib.rs:279-284, available when
Resume is the unit type: self.resume(()). -/
def UtxoOps.next {H E : Type} (ops : UtxoOps H Unit E) (h : H) : E :=
  ops.resume h ()

-- ----------------------------------------------------------------------------
-- Suspension channel (sleep), from the source

/-- Compile-time information about a Rust wire type, as used by sleep:
its core::any::type_name string and its size_of in bytes.  A value of such
a type crosses the boundary as exactly size bytes. -/
structure WireType where
  name : String
  size : Nat
deriving DecidableEq, Repr

/-- Models core::any::type_name::<T>() as used at lib.rs:227. -/
def type_name (t : WireType) : String :=
  t.name

/-- The argument record of one starstream_yield boundary call
(lib.rs:213-220): channel name pointer and length, yield data pointer and
size, resume buffer size.  Pointers are modelled by the byte contents they
point to. -/
structure YieldRequest where
  channel : String
  channelLen : Nat
  data : List Nat
  dataSize : Nat
  resumeSize : Nat
deriving DecidableEq, Repr

/-- sleep from lib.rs:226-243.  The guest builds the starstream_yield call
record: channel id is the type name string of the Yield type, the data
pointer and size_of of Yield describe the yield value, and the resume
buffer has size_of of Resume bytes.  The host (the extern starstream_yield,
modelled as a function from the request to the bytes it writes into the
resume buffer) fills the buffer, and sleep returns its contents, read back
whole by assume_init. -/
def sleep (Y R : WireType) (data : List Nat) (host : YieldRequest → List Nat) :
    YieldRequest × List Nat :=
  let name := type_name Y
  let req : YieldRequest :=
    YieldRequest.mk name name.length data Y.size R.size
  (req, host req)

/-- sleep_mut from lib.rs:245-247: the body is exactly sleep(data). -/
def sleep_mut (Y R : WireType) (data : List Nat) (host : YieldRequest → List Nat) :
    YieldRequest × List Nat :=
  sleep Y R data host

-- ----------------------------------------------------------------------------
-- Host-side models (the extern imports of the source)

/-- Modelled from the spec: the host arena behind the per-resource-type
mint/burn imports declared by token_import at lib.rs:182-186.  The spec
(sections 3, 4.3, design note on the arena-and-index pattern) describes the
host as holding an arena of live resource states keyed by the opaque handle
integer, with mint allocating a fresh key and burn consuming one.  nextPtr
is the fresh-key allocator; live maps each live handle key to the stored
wire representation. -/
structure TokenHostState where
  nextPtr : Nat
  live : List (Nat × TokenStorage)
deriving DecidableEq, Repr

/-- Association lookup in a host arena, first match wins. -/
def assocFind {B : Type} (k : Nat) : List (Nat × B) → Option B
  | [] => none
  | (k2, v) :: rest => if k2 = k then some v else assocFind k rest

/-- A handle key is live when the arena holds an entry for it.  This is the
status-like query of the linear resource contract. -/
def TokenHostState.isLive (st : TokenHostState) (k : Nat) : Bool :=
  st.live.any (fun p => p.1 == k)

/-- Modelled from the spec: the host side of the per-resource-type mint
boundary function (section 4.3): store the wire representation under a
fresh handle key and return that single handle. -/
def hostMint (st : TokenHostState) (s : TokenStorage) : TokenHandle × TokenHostState :=
  (TokenHandle.mk st.nextPtr,
   TokenHostState.mk (st.nextPtr + 1) ((st.nextPtr, s) :: st.live))

/-- Modelled from the spec: the host side of the per-resource-type burn
boundary function (section 4.3): a live handle is consumed (removed from
the arena) and its stored wire representation returned; a handle that is not
live is a fatal contract violation, modelled as none (abort). -/
def hostBurn (st : TokenHostState) (h : TokenHandle) :
    Option (TokenStorage × TokenHostState) :=
  match assocFind h.ptr st.live with
  | some s =>
      some (s, TokenHostState.mk st.nextPtr
        (st.live.filter (fun p => p.1 != h.ptr)))
  | none => none

/-- Token::mint from lib.rs:192-198 composed with the guest-export mint
logic of the resource type (token_export, lib.rs:121-134): the intermediate
is turned into its wire representation by the resource logic and handed to
the host mint import. -/
def Token.mint {I : Type} (mintLogic : I → TokenStorage) (st : TokenHostState)
    (i : I) : TokenHandle × TokenHostState :=
  hostMint st (mintLogic i)

/-- Token::burn from lib.rs:200-203 composed with the guest-export burn
logic of the resource type: the host burn import reconstructs the wire
representation, and the resource logic rebuilds the intermediate. -/
def Token.burn {I : Type} (burnLogic : TokenStorage → I) (st : TokenHostState)
    (h : TokenHandle) : Option (I × TokenHostState) :=
  (hostBurn st h).map (fun p => (burnLogic p.1, p.2))

/-- One host-observable operation on the token arena. -/
inductive TokenOp where
  | mint (s : TokenStorage)
  | burn (h : TokenHandle)
deriving DecidableEq, Repr

/-- Modelled from the spec: one step of the host token arena.  A burn of a
non-live handle aborts the guest instance; the arena itself is unchanged
in that case (and in particular never resurrects the handle). -/
def stepToken (st : TokenHostState) : TokenOp → TokenHostState
  | TokenOp.mint s => (hostMint st s).2
  | TokenOp.burn h =>
      match hostBurn st h with
      | some p => p.2
      | none => st

/-- Run a sequence of token arena operations. -/
def runTokenOps (st : TokenHostState) : List TokenOp → TokenHostState
  | [] => st
  | op :: rest => runTokenOps (stepToken st op) rest

/-- Arena well-formedness: every live key was allocated below the
fresh-key counter. -/
def TokenBounded (st : TokenHostState) : Prop :=
  ∀ p ∈ st.live, p.1 < st.nextPtr

/-- Modelled from the spec: the abort signal of the host abort primitive
(section 7): a fatal, non-recoverable teardown of the guest instance,
distinct from any typed error value. -/
inductive AbortSignal where
  | abort
deriving DecidableEq, Repr

/-- Modelled from the spec: the host state behind the per-unit-type
status/resume imports declared by utxo_import at lib.rs:296-304.  The host
alone holds the status of each unit handle (section 3: a UnitHandle is a key
the host uses to locate unit state it alone maintains); nextPtr allocates
fresh handle keys when units are spawned. -/
structure UnitHostState where
  nextPtr : Nat
  units : List (Nat × UtxoStatus)
deriving DecidableEq, Repr

/-- Modelled from the spec: the host side of the per-unit-type status import
(section 4.2): a pure read of the status the host stores for the handle. -/
def hostStatus (st : UnitHostState) (h : Nat) : Option UtxoStatus :=
  assocFind h st.units

/-- The status query as a host operation pair (result, post-state): the spec
calls status a pure read with no side effects, so the post-state is the
input state. -/
def hostStatusOp (st : UnitHostState) (h : Nat) : Option UtxoStatus × UnitHostState :=
  (hostStatus st h, st)

/-- Overwrite the stored status of one handle key, keeping every key. -/
def setStatus (k : Nat) (o : UtxoStatus) :
    List (Nat × UtxoStatus) → List (Nat × UtxoStatus)
  | [] => []
  | (k2, s) :: rest => (if k2 = k then (k, o) else (k2, s)) :: setStatus k o rest

/-- Modelled from the spec: the host side of the per-unit-type resume import
(section 4.2): precondition can_resume, i.e. the stored status is Yielded;
violating it is a fatal contract violation (abort), not a typed error and
not a silent no-op.  On a valid resume the unit runs until it suspends again
or finishes; the resulting status (Yielded or Returned) is the outcome
argument, abstracting the unit logic the host drives. -/
def hostResume (st : UnitHostState) (h : Nat) (outcome : UtxoStatus) :
    Except AbortSignal UnitHostState :=
  match assocFind h st.units with
  | some UtxoStatus.Yielded =>
      Except.ok (UnitHostState.mk st.nextPtr (setStatus h outcome st.units))
  | some UtxoStatus.Returned => Except.error AbortSignal.abort
  | none => Except.error AbortSignal.abort

/-- One host-observable operation on the unit state machine. -/
inductive UnitOp where
  | spawn (initial : UtxoStatus)
  | resume (h : Nat) (outcome : UtxoStatus)
  | statusQ (h : Nat)
deriving DecidableEq, Repr

/-- Modelled from the spec: one step of the host unit state machine.  A
rejected resume aborts the offending guest instance; the host table itself
is unchanged by the rejected call. -/
def stepUnit (st : UnitHostState) : UnitOp → UnitHostState
  | UnitOp.spawn s =>
      UnitHostState.mk (st.nextPtr + 1) ((st.nextPtr, s) :: st.units)
  | UnitOp.resume h o =>
      match hostResume st h o with
      | Except.ok st2 => st2
      | Except.error _ => st
  | UnitOp.statusQ h => (hostStatusOp st h).2

/-- Run a sequence of unit state machine operations. -/
def runUnitOps (st : UnitHostState) : List UnitOp → UnitHostState
  | [] => st
  | op :: rest => runUnitOps (stepUnit st op) rest

/-- Unit table well-formedness: every tracked handle key was allocated
below the fresh-key counter. -/
def UnitBounded (st : UnitHostState) : Prop :=
  ∀ p ∈ st.units, p.1 < st.nextPtr

-- ----------------------------------------------------------------------------
-- Arena helper lemmas

theorem assocFind_eq_none_of_any_false {B : Type} (k : Nat) (l : List (Nat × B))
    (h : l.any (fun p => p.1 == k) = false) : assocFind k l = none := by
  induction l with
  | nil => rfl
  | cons p rest ih =>
    obtain ⟨k2, v⟩ := p
    simp only [List.any_cons, Bool.or_eq_false_iff, beq_eq_false_iff_ne, ne_eq] at h
    simp only [assocFind, if_neg h.1, ih h.2]

theorem any_false_of_filter {B : Type} (f g : Nat × B → Bool) (l : List (Nat × B))
    (h : l.any g = false) : (l.filter f).any g = false := by
  induction l with
  | nil => rfl
  | cons p rest ih =>
    simp only [List.any_cons, Bool.or_eq_false_iff] at h
    by_cases hf : f p = true
    · simp only [List.filter_cons, if_pos hf, List.any_cons, Bool.or_eq_false_iff]
      exact ⟨h.1, ih h.2⟩
    · simp only [List.filter_cons, if_neg hf]
      exact ih h.2

theorem any_filter_ne_eq_false {B : Type} (k : Nat) (l : List (Nat × B)) :
    (l.filter (fun p => p.1 != k)).any (fun p => p.1 == k) = false := by
  induction l with
  | nil => rfl
  | cons p rest ih =>
    obtain ⟨k2, v⟩ := p
    by_cases hk : k2 = k
    · subst hk
      simp [List.filter_cons, ih]
    · simp [List.filter_cons, hk, ih]

theorem lt_of_assocFind_some {B : Type} {n k : Nat} {v : B} {l : List (Nat × B)}
    (hb : ∀ p ∈ l, p.1 < n) (h : assocFind k l = some v) : k < n := by
  induction l with
  | nil => simp [assocFind] at h
  | cons p rest ih =>
    obtain ⟨k2, w⟩ := p
    by_cases hk : k2 = k
    · exact hk ▸ hb (k2, w) (List.mem_cons_self _ _)
    · simp only [assocFind, if_neg hk] at h
      exact ih (fun q hq => hb q (List.mem_cons_of_mem _ hq)) h

theorem any_eq_false_of_lt {B : Type} {n : Nat} (l : List (Nat × B))
    (hb : ∀ p ∈ l, p.1 < n) : l.any (fun p => p.1 == n) = false := by
  induction l with
  | nil => rfl
  | cons p rest ih =>
    simp only [List.any_cons, Bool.or_eq_false_iff, beq_eq_false_iff_ne, ne_eq]
    refine ⟨Nat.ne_of_lt (hb p (List.mem_cons_self _ _)), ?_⟩
    exact ih (fun q hq => hb q (List.mem_cons_of_mem _ hq))

theorem countP_eq_zero_of_lt {B : Type} {n : Nat} (l : List (Nat × B))
    (hb : ∀ p ∈ l, p.1 < n) : l.countP (fun p => p.1 == n) = 0 := by
  induction l with
  | nil => rfl
  | cons p rest ih =>
    rw [List.countP_cons]
    have hne : (p.1 == n) = false := by
      simpa using Nat.ne_of_lt (hb p (List.mem_cons_self _ _))
    simp only [hne, if_false]
    exact ih (fun q hq => hb q (List.mem_cons_of_mem _ hq))

theorem assocFind_setStatus_ne {h k : Nat} {o : UtxoStatus}
    (l : List (Nat × UtxoStatus)) (hne : h ≠ k) :
    assocFind h (setStatus k o l) = assocFind h l := by
  induction l with
  | nil => rfl
  | cons p rest ih =>
    obtain ⟨k2, s⟩ := p
    by_cases hk : k2 = k
    · rw [setStatus, if_pos hk]
      simp only [assocFind]
      rw [if_neg (fun hc : k = h => hne hc.symm),
        if_neg (fun hc : k2 = h => hne (by rw [← hc]; exact hk))]
      exact ih
    · rw [setStatus, if_neg hk]
      simp only [assocFind]
      by_cases hh : k2 = h
      · rw [if_pos hh, if_pos hh]
      · rw [if_neg hh, if_neg hh]
        exact ih

theorem setStatus_keys_lt {k n : Nat} {o : UtxoStatus}
    (l : List (Nat × UtxoStatus)) (hb : ∀ p ∈ l, p.1 < n) :
    ∀ p ∈ setStatus k o l, p.1 < n := by
  induction l with
  | nil => intro p hp; simp [setStatus] at hp
  | cons q rest ih =>
    obtain ⟨k2, s⟩ := q
    intro p hp
    rw [setStatus] at hp
    rcases List.mem_cons.mp hp with hp1 | hp2
    · by_cases hk : k2 = k
      · rw [if_pos hk] at hp1
        rw [hp1]
        exact hk ▸ hb (k2, s) (List.mem_cons_self _ _)
      · rw [if_neg hk] at hp1
        rw [hp1]
        exact hb (k2, s) (List.mem_cons_self _ _)
    · exact ih (fun q2 hq2 => hb q2 (List.mem_cons_of_mem _ hq2)) p hp2

-- ----------------------------------------------------------------------------
-- Token arena: linearity invariant

/-- A consumed handle key: no longer live, and below the allocator, so no
future mint can hand it out again. -/
def TokenDead (st : TokenHostState) (k : Nat) : Prop :=
  st.isLive k = false ∧ k < st.nextPtr

theorem hostBurn_some_shape {st : TokenHostState} {h : TokenHandle}
    {p : TokenStorage × TokenHostState} (heq : hostBurn st h = some p) :
    assocFind h.ptr st.live = some p.1 ∧
      p.2 = TokenHostState.mk st.nextPtr
        (st.live.filter (fun q => q.1 != h.ptr)) := by
  unfold hostBurn at heq
  cases hfind : assocFind h.ptr st.live with
  | none =>
    rw [hfind] at heq
    exact absurd heq (by simp)
  | some s =>
    rw [hfind] at heq
    have hp := Option.some.inj heq
    rw [← hp]
    exact ⟨rfl, rfl⟩

theorem hostBurn_eq_none_of_dead {st : TokenHostState} {h : TokenHandle}
    (hl : st.isLive h.ptr = false) : hostBurn st h = none := by
  unfold hostBurn
  rw [assocFind_eq_none_of_any_false h.ptr st.live hl]

theorem tokenDead_step (st : TokenHostState) (op : TokenOp) (k : Nat)
    (hd : TokenDead st k) : TokenDead (stepToken st op) k := by
  cases op with
  | mint s =>
    refine ⟨?_, Nat.lt_succ_of_lt hd.2⟩
    show ((st.nextPtr, s) :: st.live).any (fun p => p.1 == k) = false
    simp only [List.any_cons, Bool.or_eq_false_iff, beq_eq_false_iff_ne, ne_eq]
    exact ⟨Nat.ne_of_gt hd.2, hd.1⟩
  | burn h =>
    show TokenDead (match hostBurn st h with
      | some p => p.2
      | none => st) k
    cases heq : hostBurn st h with
    | none => exact hd
    | some p =>
      obtain ⟨_, hshape⟩ := hostBurn_some_shape heq
      show TokenDead p.2 k
      rw [hshape]
      exact ⟨any_false_of_filter _ _ st.live hd.1, hd.2⟩

theorem tokenDead_run (st : TokenHostState) (ops : List TokenOp) (k : Nat)
    (hd : TokenDead st k) : TokenDead (runTokenOps st ops) k := by
  induction ops generalizing st with
  | nil => exact hd
  | cons op rest ih => exact ih (stepToken st op) (tokenDead_step st op k hd)

-- ----------------------------------------------------------------------------
-- Unit state machine: terminality invariant

/-- A permanently finished unit: the host records it Returned and its key is
below the allocator, so no spawn can reuse it. -/
def UnitFinished (st : UnitHostState) (h : Nat) : Prop :=
  hostStatus st h = some UtxoStatus.Returned ∧ h < st.nextPtr

theorem hostResume_ok_shape {st st2 : UnitHostState} {h : Nat} {o : UtxoStatus}
    (heq : hostResume st h o = Except.ok st2) :
    assocFind h st.units = some UtxoStatus.Yielded ∧
      st2 = UnitHostState.mk st.nextPtr (setStatus h o st.units) := by
  unfold hostResume at heq
  cases hfind : assocFind h st.units with
  | none =>
    rw [hfind] at heq
    exact absurd heq (by simp)
  | some s =>
    rw [hfind] at heq
    cases s with
    | Returned => exact absurd heq (by simp)
    | Yielded =>
      have hst := Except.ok.inj heq
      exact ⟨rfl, hst.symm⟩

theorem hostResume_error_of_returned {st : UnitHostState} {h : Nat}
    (hret : hostStatus st h = some UtxoStatus.Returned) (o : UtxoStatus) :
    hostResume st h o = Except.error AbortSignal.abort := by
  unfold hostResume
  unfold hostStatus at hret
  rw [hret]

theorem unitFinished_step (st : UnitHostState) (op : UnitOp) (h : Nat)
    (hf : UnitFinished st h) : UnitFinished (stepUnit st op) h := by
  cases op with
  | spawn s =>
    refine ⟨?_, Nat.lt_succ_of_lt hf.2⟩
    show assocFind h ((st.nextPtr, s) :: st.units) = some UtxoStatus.Returned
    simp only [assocFind, if_neg (Nat.ne_of_gt hf.2)]
    exact hf.1
  | resume h2 o =>
    show UnitFinished (match hostResume st h2 o with
      | Except.ok st2 => st2
      | Except.error _ => st) h
    cases heq : hostResume st h2 o with
    | error e => exact hf
    | ok st2 =>
      obtain ⟨hfind, hshape⟩ := hostResume_ok_shape heq
      have hne : h ≠ h2 := by
        intro hc
        rw [← hc] at hfind
        have := hf.1
        unfold hostStatus at this
        rw [this] at hfind
        exact absurd (Option.some.inj hfind) (by simp)
      show UnitFinished st2 h
      rw [hshape]
      refine ⟨?_, hf.2⟩
      show assocFind h (setStatus h2 o st.units) = some UtxoStatus.Returned
      rw [assocFind_setStatus_ne st.units hne]
      exact hf.1
  | statusQ h2 => exact hf

theorem unitFinished_run (st : UnitHostState) (ops : List UnitOp) (h : Nat)
    (hf : UnitFinished st h) : UnitFinished (runUnitOps st ops) h := by
  induction ops generalizing st with
  | nil => exact hf
  | cons op rest ih => exact ih (stepUnit st op) (unitFinished_step st op h hf)

-- ----------------------------------------------------------------------------
-- Claim theorems

/-- C1: a TokenHandle is linear.  In the host arena modelled from the spec:
once hostBurn has consumed a handle, after any further sequence of mint/burn
operations that handle is never again live to the status-like query
(isLive stays false) and any burn-like attempt on it is rejected (hostBurn
returns none, an abort); moreover every mint call from a well-formed state
returns a single handle that was not live before and occurs exactly once in
the arena afterwards, so no two distinct live handles ever derive from the
same mint call. -/
theorem tokenHandle_linear_single_use
    (st : TokenHostState) (hwf : TokenBounded st) (h : TokenHandle)
    (s : TokenStorage) (st2 : TokenHostState)
    (hburn : hostBurn st h = some (s, st2)) (ops : List TokenOp) :
    (runTokenOps st2 ops).isLive h.ptr = false
  ∧ hostBurn (runTokenOps st2 ops) h = none
  ∧ ∀ t : TokenStorage,
      st.isLive (hostMint st t).1.ptr = false
      ∧ (hostMint st t).2.live.countP
          (fun p => p.1 == (hostMint st t).1.ptr) = 1 := by
  obtain ⟨hfind, hshape⟩ := hostBurn_some_shape hburn
  have hlt : h.ptr < st.nextPtr := lt_of_assocFind_some hwf hfind
  have hs2 : st2 = TokenHostState.mk st.nextPtr
      (st.live.filter (fun q => q.1 != h.ptr)) := hshape
  have hdead2 : TokenDead st2 h.ptr := by
    rw [hs2]
    exact ⟨any_filter_ne_eq_false h.ptr st.live, hlt⟩
  have hdead : TokenDead (runTokenOps st2 ops) h.ptr :=
    tokenDead_run st2 ops h.ptr hdead2
  refine ⟨hdead.1, hostBurn_eq_none_of_dead hdead.1, ?_⟩
  intro t
  constructor
  · show st.isLive st.nextPtr = false
    exact any_eq_false_of_lt st.live hwf
  · show ((st.nextPtr, t) :: st.live).countP (fun p => p.1 == st.nextPtr) = 1
    rw [List.countP_cons, countP_eq_zero_of_lt st.live hwf]
    simp

/-- Witness for C1: burn handle 0 in a one-token arena, then mint and a
repeated burn attempt; handle 0 stays dead, and a mint from the original
arena yields a fresh handle. -/
theorem tokenHandle_linear_single_use_witness :
    (runTokenOps (TokenHostState.mk 1 [])
        [TokenOp.mint (TokenStorage.mk 1 2),
         TokenOp.burn (TokenHandle.mk 0)]).isLive 0 = false
  ∧ hostBurn (runTokenOps (TokenHostState.mk 1 [])
        [TokenOp.mint (TokenStorage.mk 1 2),
         TokenOp.burn (TokenHandle.mk 0)]) (TokenHandle.mk 0) = none
  ∧ TokenHostState.isLive (TokenHostState.mk 1 [(0, TokenStorage.mk 7 100)])
      (hostMint (TokenHostState.mk 1 [(0, TokenStorage.mk 7 100)])
        (TokenStorage.mk 3 4)).1.ptr = false :=
  have main := tokenHandle_linear_single_use
    (TokenHostState.mk 1 [(0, TokenStorage.mk 7 100)])
    (by unfold TokenBounded; decide)
    (TokenHandle.mk 0) (TokenStorage.mk 7 100) (TokenHostState.mk 1 [])
    (by decide)
    [TokenOp.mint (TokenStorage.mk 1 2), TokenOp.burn (TokenHandle.mk 0)]
  ⟨main.1, main.2.1, (main.2.2 (TokenStorage.mk 3 4)).1⟩

/-- C2: suspension round-trip.  The starstream_yield request built by sleep
carries exactly the bytes of the Yield value with size_of of Yield, and when
the host writes a Resume value of size_of of Resume bytes into the resume
buffer, sleep returns exactly those bytes with no truncation. -/
theorem sleep_suspension_roundtrip
    (Y R : WireType) (data : List Nat) (host : YieldRequest → List Nat)
    (Rbytes : List Nat)
    (hhost : host (sleep Y R data host).1 = Rbytes)
    (hlen : Rbytes.length = R.size) :
    (sleep Y R data host).1.data = data
  ∧ (sleep Y R data host).1.dataSize = Y.size
  ∧ (sleep Y R data host).1.resumeSize = R.size
  ∧ (sleep Y R data host).2 = Rbytes
  ∧ (sleep Y R data host).2.length = R.size := by
  refine ⟨rfl, rfl, rfl, hhost, ?_⟩
  show (host (sleep Y R data host).1).length = R.size
  rw [hhost, hlen]

/-- Witness for C2: the spec scenario, a 64-bit yield of value 10 resumed
with the empty value. -/
theorem sleep_suspension_roundtrip_witness :
    (sleep (WireType.mk "u64" 8) (WireType.mk "unit" 0)
        [10, 0, 0, 0, 0, 0, 0, 0] (fun _ => [])).1.data
      = [10, 0, 0, 0, 0, 0, 0, 0]
  ∧ (sleep (WireType.mk "u64" 8) (WireType.mk "unit" 0)
        [10, 0, 0, 0, 0, 0, 0, 0] (fun _ => [])).1.dataSize = 8
  ∧ (sleep (WireType.mk "u64" 8) (WireType.mk "unit" 0)
        [10, 0, 0, 0, 0, 0, 0, 0] (fun _ => [])).1.resumeSize = 0
  ∧ (sleep (WireType.mk "u64" 8) (WireType.mk "unit" 0)
        [10, 0, 0, 0, 0, 0, 0, 0] (fun _ => [])).2 = []
  ∧ (sleep (WireType.mk "u64" 8) (WireType.mk "unit" 0)
        [10, 0, 0, 0, 0, 0, 0, 0] (fun _ => [])).2.length = 0 :=
  sleep_suspension_roundtrip (WireType.mk "u64" 8) (WireType.mk "unit" 0)
    [10, 0, 0, 0, 0, 0, 0, 0] (fun _ => []) [] rfl rfl

/-- C3: linear resource round-trip.  When the resource logic performs no
transformation (burn logic inverts mint logic), burning the handle produced
by a mint reconstructs an intermediate content-equal to the one minted. -/
theorem token_burn_mint_roundtrip {I : Type}
    (mintLogic : I → TokenStorage) (burnLogic : TokenStorage → I)
    (hinv : ∀ x, burnLogic (mintLogic x) = x)
    (st : TokenHostState) (i : I) :
    (Token.burn burnLogic (Token.mint mintLogic st i).2
        (Token.mint mintLogic st i).1).map Prod.fst = some i := by
  unfold Token.mint Token.burn hostMint hostBurn
  simp [assocFind, hinv]

/-- Witness for C3: the spec scenario, mint of TokenStorage with id 7 and
amount 100 immediately burned, with identity resource logic. -/
theorem token_burn_mint_roundtrip_witness :
    (Token.burn (fun s => s)
        (Token.mint (fun s => s) (TokenHostState.mk 0 [])
          (TokenStorage.mk 7 100)).2
        (Token.mint (fun s => s) (TokenHostState.mk 0 [])
          (TokenStorage.mk 7 100)).1).map Prod.fst
      = some (TokenStorage.mk 7 100) :=
  token_burn_mint_roundtrip (fun s => s) (fun s => s) (fun _ => rfl)
    (TokenHostState.mk 0 []) (TokenStorage.mk 7 100)

/-- C4: Returned is terminal.  In the unit state machine modelled from the
spec: a handle whose status is Returned rejects every resume attempt with
the fatal abort signal (never a silent success and never a typed error
value), and after any further sequence of operations its status is still
Returned, so it never becomes Yielded again and later resume attempts are
also rejected. -/
theorem returned_is_terminal
    (st : UnitHostState) (hwf : UnitBounded st) (h : Nat)
    (hret : hostStatus st h = some UtxoStatus.Returned) :
    (∀ o, hostResume st h o = Except.error AbortSignal.abort)
  ∧ (∀ ops, hostStatus (runUnitOps st ops) h = some UtxoStatus.Returned)
  ∧ (∀ ops o, hostResume (runUnitOps st ops) h o
      = Except.error AbortSignal.abort) := by
  have hlt : h < st.nextPtr := lt_of_assocFind_some hwf hret
  have hfin : UnitFinished st h := ⟨hret, hlt⟩
  refine ⟨hostResume_error_of_returned hret, ?_, ?_⟩
  · intro ops
    exact (unitFinished_run st ops h hfin).1
  · intro ops o
    exact hostResume_error_of_returned (unitFinished_run st ops h hfin).1 o

/-- Witness for C4: handle 0 is Returned; a direct resume aborts, and after
spawning another unit and attempting a resume, handle 0 is still Returned
and a further resume attempt still aborts. -/
theorem returned_is_terminal_witness :
    hostResume (UnitHostState.mk 1 [(0, UtxoStatus.Returned)]) 0
        UtxoStatus.Yielded = Except.error AbortSignal.abort
  ∧ hostStatus (runUnitOps (UnitHostState.mk 1 [(0, UtxoStatus.Returned)])
        [UnitOp.spawn UtxoStatus.Yielded, UnitOp.resume 0 UtxoStatus.Yielded]) 0
      = some UtxoStatus.Returned
  ∧ hostResume (runUnitOps (UnitHostState.mk 1 [(0, UtxoStatus.Returned)])
        [UnitOp.spawn UtxoStatus.Yielded, UnitOp.resume 0 UtxoStatus.Yielded]) 0
        UtxoStatus.Returned = Except.error AbortSignal.abort :=
  have main := returned_is_terminal (UnitHostState.mk 1 [(0, UtxoStatus.Returned)])
    (by unfold UnitBounded; decide) 0 rfl
  ⟨main.1 UtxoStatus.Yielded,
   main.2.1 [UnitOp.spawn UtxoStatus.Yielded, UnitOp.resume 0 UtxoStatus.Yielded],
   main.2.2 [UnitOp.spawn UtxoStatus.Yielded, UnitOp.resume 0 UtxoStatus.Yielded]
     UtxoStatus.Returned⟩

/-- C5: can_resume returns true exactly when status is Yielded, for every
instantiation of the Utxo trait and every handle; in particular a Returned
status gives can_resume false. -/
theorem can_resume_iff_yielded {H R E : Type} (ops : UtxoOps H R E) (h : H) :
    ops.can_resume h = true ↔ ops.status h = UtxoStatus.Yielded := by
  unfold UtxoOps.can_resume
  cases hs : ops.status h <;> simp [hs, UtxoStatus.can_resume]

/-- C6: status is a pure query on the host unit table: the operation leaves
the state unchanged, a second consecutive call returns the same value, and
any number of repeated status queries leaves the state unchanged. -/
theorem status_pure_query (st : UnitHostState) (h : Nat) (n : Nat) :
    (hostStatusOp st h).2 = st
  ∧ (hostStatusOp (hostStatusOp st h).2 h).1 = (hostStatusOp st h).1
  ∧ runUnitOps st (List.replicate n (UnitOp.statusQ h)) = st := by
  refine ⟨rfl, rfl, ?_⟩
  induction n with
  | zero => rfl
  | succ m ih => simpa [List.replicate_succ, runUnitOps, stepUnit, hostStatusOp] using ih

/-- C7: next is exactly resume with the empty value, for every instantiation
of the Utxo trait whose Resume type is the unit type. -/
theorem next_eq_resume_unit {H E : Type} (ops : UtxoOps H Unit E) (h : H) :
    ops.next h = ops.resume h () :=
  rfl

/-- C8: sleep_mut has externally observable behaviour identical to sleep:
the same boundary request and the same returned resume bytes, for every
yield value and every host. -/
theorem sleep_mut_eq_sleep (Y R : WireType) (data : List Nat)
    (host : YieldRequest → List Nat) :
    sleep_mut Y R data host = sleep Y R data host :=
  rfl

/-- C9: the channel identifier passed across the boundary by sleep is the
type name string of the Yield type, with its length. -/
theorem sleep_channel_is_type_name (Y R : WireType) (data : List Nat)
    (host : YieldRequest → List Nat) :
    (sleep Y R data host).1.channel = type_name Y
  ∧ (sleep Y R data host).1.channelLen = (type_name Y).length :=
  ⟨rfl, rfl⟩

/-- C10: signature verification is vacuous in this version: is_valid returns
true for every signed message and every message, and assert_tx_signed_by
performs no check for every public key. -/
theorem signature_check_vacuous (s : SignedMessage) (m : List Nat)
    (k : PublicKey) :
    SignedMessage.is_valid s m = true ∧ assert_tx_signed_by k = () :=
  ⟨rfl, rfl⟩
